import Mathlib

/-!
Verification of the propositional-logic CNF library (`src/lib.rs`).

The Rust crate defines an expression tree `Prop` for propositional formulas,
a five-pass rewrite pipeline (`bicon_elim`, `implic_elim`, `move_not_inward`,
`distribute_or_over_and`, `split_clause`) collected in `cnf`, a shunting-yard
parser `KB::str_to_prop`, and a knowledge base `KB` with `tell` and
`split_clauses`.

Every definition below is a direct translation of the corresponding Rust
function.  Rust `panic!` branches are modelled by `Option` (`none` = panic);
the parser's `Result<_, &'static str>` is modelled by `Except String`.
-/

namespace Logic

/-- The `Prop` enum of the source (lib.rs, lines 37-48).  Constructors `tru`
and `fls` stand for the Rust variants `True` and `False`. -/
inductive Prop' where
  | tru : Prop'
  | fls : Prop'
  | symbol (name : String) : Prop'
  | not (arg : Prop') : Prop'
  | and (lhs rhs : Prop') : Prop'
  | or (lhs rhs : Prop') : Prop'
  | implic (lhs rhs : Prop') : Prop'
  | iff (lhs rhs : Prop') : Prop'
deriving DecidableEq

/-- A model maps symbol names to truth values.  The Rust `Model` is a
`HashMap<String, bool>` read with default `false` (closed-world); a total
function captures exactly the induced assignment. -/
def Model : Type := String → Bool

/-- `Prop::eval` (lib.rs, lines 83-95). -/
def eval : Prop' → Model → Bool
  | .tru, _ => true
  | .fls, _ => false
  | .symbol name, m => m name
  | .not p, m => !(eval p m)
  | .and l r, m => eval l m && eval r m
  | .or l r, m => eval l m || eval r m
  | .implic l r, m => !(eval l m) || eval r m
  | .iff l r, m => eval l m == eval r m

/-- Node count, used as termination measure for the rewrite passes. -/
def size : Prop' → Nat
  | .tru => 1
  | .fls => 1
  | .symbol _ => 1
  | .not p => 1 + size p
  | .and l r => 1 + size l + size r
  | .or l r => 1 + size l + size r
  | .implic l r => 1 + size l + size r
  | .iff l r => 1 + size l + size r

theorem size_pos (p : Prop') : 0 < size p := by
  cases p <;> simp [size]

/-- `Prop::bicon_elim` (lib.rs, lines 97-111): post-order recursion, then an
`Iff` node is replaced by the conjunction of the two implications (the left
conjunct clones the already-rewritten children). -/
def bicon_elim : Prop' → Prop'
  | .tru => .tru
  | .fls => .fls
  | .symbol name => .symbol name
  | .not p => .not (bicon_elim p)
  | .and l r => .and (bicon_elim l) (bicon_elim r)
  | .or l r => .or (bicon_elim l) (bicon_elim r)
  | .implic l r => .implic (bicon_elim l) (bicon_elim r)
  | .iff l r => .and (.implic (bicon_elim l) (bicon_elim r))
                     (.implic (bicon_elim r) (bicon_elim l))

/-- `Prop::implic_elim` (lib.rs, lines 113-126): post-order recursion, then an
`Implic` node is replaced by `Or(Not lhs, rhs)`. -/
def implic_elim : Prop' → Prop'
  | .tru => .tru
  | .fls => .fls
  | .symbol name => .symbol name
  | .not p => .not (implic_elim p)
  | .and l r => .and (implic_elim l) (implic_elim r)
  | .or l r => .or (implic_elim l) (implic_elim r)
  | .implic l r => .or (.not (implic_elim l)) (implic_elim r)
  | .iff l r => .iff (implic_elim l) (implic_elim r)

/-- `Prop::move_not_inward` (lib.rs, lines 128-169), with `panic!` modelled as
`none`.  Note the asymmetry of the source: in the `Not(And(a,b))` case the
freshly built `Not(a)`, `Not(b)` are recursively normalized, while in the
`Not(Or(a,b))` case the source normalizes `a`, `b` first and only then wraps
them in `Not`, leaving those `Not` nodes unexamined. -/
def move_not_inward : Prop' → Option Prop'
  | .not (.not x) => move_not_inward x
  | .not (.and a b) => do
      let l ← move_not_inward (.not a)
      let r ← move_not_inward (.not b)
      some (.or l r)
  | .not (.or a b) => do
      let l ← move_not_inward a
      let r ← move_not_inward b
      some (.and (.not l) (.not r))
  | .not .tru => some .fls
  | .not .fls => some .tru
  | .not (.symbol name) => some (.not (.symbol name))
  | .not (.implic _ _) => none
  | .not (.iff _ _) => none
  | .and l r => do
      let l' ← move_not_inward l
      let r' ← move_not_inward r
      some (.and l' r')
  | .or l r => do
      let l' ← move_not_inward l
      let r' ← move_not_inward r
      some (.or l' r')
  | .implic _ _ => none
  | .iff _ _ => none
  | .tru => some .tru
  | .fls => some .fls
  | .symbol name => some (.symbol name)
termination_by p => size p
decreasing_by all_goals (simp [size] <;> omega)

/-- `Prop::distribute_or_over_and` (lib.rs, lines 171-198), with `panic!`
modelled as `none`.  The source checks the left child of an `Or` for being an
`And` first; an `Or` with neither child an `And` is left untouched (no
recursion into its children). -/
def distribute_or_over_and : Prop' → Option Prop'
  | .or (.and l1 l2) r => do
      let a ← distribute_or_over_and (.or l1 r)
      let b ← distribute_or_over_and (.or l2 r)
      some (.and a b)
  | .or l (.and r1 r2) => do
      let a ← distribute_or_over_and (.or l r1)
      let b ← distribute_or_over_and (.or l r2)
      some (.and a b)
  | .or l r => some (.or l r)
  | .and l r => do
      let a ← distribute_or_over_and l
      let b ← distribute_or_over_and r
      some (.and a b)
  | .not p => do
      let a ← distribute_or_over_and p
      some (.not a)
  | .implic _ _ => none
  | .iff _ _ => none
  | .tru => some .tru
  | .fls => some .fls
  | .symbol name => some (.symbol name)
termination_by p => size p
decreasing_by all_goals (simp [size] <;> omega)

/-- The `if let Prop::And(_)` test used by clause splitting. -/
def isAnd : Prop' → Bool
  | .and _ _ => true
  | _ => false

/-- The work-stack loop shared by `Prop::split_clause` (lib.rs, lines 200-221)
and `KB::split_clauses` (lib.rs, lines 395-415).  The first list is the stack
with its head the next element popped (the end of the Rust `Vec`); the second
accumulates `new_clauses` in push order. -/
def split_loop : List Prop' → List Prop' → List Prop'
  | [], acc => acc
  | .and l r :: rest, acc =>
      if isAnd l then
        if isAnd r then split_loop (r :: l :: rest) acc
        else split_loop (l :: rest) (acc ++ [r])
      else
        if isAnd r then split_loop (r :: rest) (acc ++ [l])
        else split_loop rest (acc ++ [l, r])
  | p :: rest, acc => split_loop rest (acc ++ [p])
termination_by stack _ => (stack.map size).sum
decreasing_by
  all_goals simp [size]
  all_goals try omega
  all_goals have hp0 := size_pos p
  all_goals omega

/-- `Prop::split_clause` (lib.rs, lines 200-221): the loop started with the
formula as the only stack entry. -/
def split_clause (p : Prop') : List Prop' :=
  split_loop [p] []

/-- `Prop::cnf` (lib.rs, lines 223-229): the five passes in order.  A `none`
records that one of the passes hit a `panic!` branch. -/
def cnf (p : Prop') : Option (List Prop') := do
  let p1 := bicon_elim p
  let p2 := implic_elim p1
  let p3 ← move_not_inward p2
  let p4 ← distribute_or_over_and p3
  some (split_clause p4)

/-- The `KB` struct (lib.rs, lines 283-285). -/
structure KB where
  sentences : List Prop'
deriving DecidableEq

/-- `KB::empty` (lib.rs, lines 288-292). -/
def KB.empty : KB := ⟨[]⟩

/-- `KB::split_clauses` (lib.rs, lines 395-415): pops from the end of
`sentences` (hence the `reverse`) and collects into `new_sentences`. -/
def KB.split_clauses (kb : KB) : KB :=
  ⟨split_loop kb.sentences.reverse []⟩

/-- `KB::tell` (lib.rs, lines 417-420): run `cnf` and append the clauses.
The Rust return value is always `Ok(())`; `none` records a `panic!` inside
`cnf`. -/
def KB.tell (kb : KB) (p : Prop') : Option KB :=
  (cnf p).map (fun cs => ⟨kb.sentences ++ cs⟩)

/-- Rust `sentence.split(" ")` (lib.rs, line 297): split on every single
space; adjacent separators and an empty input produce empty tokens. -/
def splitSpacesAux : List Char → List Char → List (List Char)
  | [], cur => [cur.reverse]
  | c :: rest, cur =>
      if c = ' ' then cur.reverse :: splitSpacesAux rest []
      else splitSpacesAux rest (c :: cur)

/-- Tokenization of the input sentence, as in lib.rs lines 296-297. -/
def tokenize (s : String) : List String :=
  (splitSpacesAux s.data []).map (fun cs => String.mk cs)

/-- Whether a token contains a given character.  The source tests tokens with
`Regex::captures`, an unanchored search: `\([[:alpha:]]*` finds a match
exactly when the token contains a `(`; the (malformed POSIX class) pattern
`[[::alpha::]]*\)` degrades to a character class repeated zero or more times
followed by `)`, so it finds a match exactly when the token contains a `)`
(lib.rs, lines 301-302, 339, 342-343). -/
def strContains (s : String) (c : Char) : Bool :=
  s.data.contains c

/-- Rust `&name[1..]` (lib.rs, line 341): drop the first character. -/
def dropFirstChar (s : String) : String :=
  String.mk (s.data.drop 1)

/-- Rust `&name[..name.len()-1]` (lib.rs, line 344): drop the last
character. -/
def dropLastChar (s : String) : String :=
  String.mk (s.data.dropLast)

/-- Pop operators of higher-or-equal precedence into the output queue
(the `while let Some(..) = ops.last()` loops of lib.rs, lines 309-311,
315-317, 321-324).  The operator stack has its top at the head. -/
def flushWhile (keep : String → Bool) :
    List String → List String → List String × List String
  | expr, [] => (expr, [])
  | expr, op :: rest =>
      if keep op then flushWhile keep (expr ++ [op]) rest
      else (expr, op :: rest)

/-- Pop operators into the output queue until the matching `(` is found,
failing when the stack empties first (lib.rs, lines 329-336 and 345-352). -/
def popUntilParen :
    List String → List String → Except String (List String × List String)
  | _, [] => .error "invalid sentence"
  | expr, op :: rest =>
      if op = "(" then .ok (expr, rest)
      else popUntilParen (expr ++ [op]) rest

/-- The token loop of `KB::str_to_prop` (lib.rs, lines 303-358) followed by
the final flush of the operator stack into the output queue (lines 359-361).
`expr` is the output queue front-first; `ops` is the operator stack with its
top at the head. -/
def process_tokens :
    List String → List String → List String → Except String (List String)
  | [], expr, ops => .ok (expr ++ ops)
  | tok :: rest, expr, ops =>
      if tok = "&" then
        process_tokens rest expr ("&" :: ops)
      else if tok = "|" then
        let (e, o) := flushWhile (fun s => s = "&") expr ops
        process_tokens rest e ("|" :: o)
      else if tok = "=>" then
        let (e, o) := flushWhile (fun s => s = "&" || s = "|") expr ops
        process_tokens rest e ("=>" :: o)
      else if tok = "<=>" then
        let (e, o) := flushWhile (fun s => s = "&" || s = "|" || s = "=>") expr ops
        process_tokens rest e ("<=>" :: o)
      else if tok = "(" then
        process_tokens rest expr ("(" :: ops)
      else if tok = ")" then
        match popUntilParen expr ops with
        | .error e => .error e
        | .ok (e, o) => process_tokens rest e o
      else if strContains tok '(' then
        process_tokens rest (expr ++ [dropFirstChar tok]) ("(" :: ops)
      else if strContains tok ')' then
        match popUntilParen (expr ++ [dropLastChar tok]) ops with
        | .error e => .error e
        | .ok (e, o) => process_tokens rest e o
      else
        process_tokens rest (expr ++ [tok]) ops

/-- The postfix-evaluation loop of `KB::str_to_prop` (lib.rs, lines 363-391):
binary operators pop `rhs` then `lhs`, failing on underflow; at the end the
top of the operand stack is returned (`stack.pop().ok_or_else(..)`), failing
only when the stack is empty — leftover operands below the top are ignored.
The operand stack has its top at the head. -/
def evalPostfix : List String → List Prop' → Except String Prop'
  | [], stack =>
      match stack with
      | p :: _ => .ok p
      | [] => .error "invalid sentence"
  | tok :: rest, stack =>
      if tok = "&" then
        match stack with
        | rhs :: lhs :: s => evalPostfix rest (.and lhs rhs :: s)
        | _ => .error "invalid sentence"
      else if tok = "|" then
        match stack with
        | rhs :: lhs :: s => evalPostfix rest (.or lhs rhs :: s)
        | _ => .error "invalid sentence"
      else if tok = "=>" then
        match stack with
        | rhs :: lhs :: s => evalPostfix rest (.implic lhs rhs :: s)
        | _ => .error "invalid sentence"
      else if tok = "<=>" then
        match stack with
        | rhs :: lhs :: s => evalPostfix rest (.iff lhs rhs :: s)
        | _ => .error "invalid sentence"
      else if tok = "True" then evalPostfix rest (.tru :: stack)
      else if tok = "False" then evalPostfix rest (.fls :: stack)
      else evalPostfix rest (.symbol tok :: stack)

/-- `KB::str_to_prop` (lib.rs, lines 295-392): tokenize, shunting-yard into a
postfix queue, then evaluate the queue. -/
def KB.str_to_prop (sentence : String) : Except String Prop' :=
  match process_tokens (tokenize sentence) [] [] with
  | .error e => .error e
  | .ok expr => evalPostfix expr []

/-- The tree contains no `Implic` and no `Iff` node (the postcondition of
pipeline passes 1-2). -/
def noII : Prop' → Bool
  | .tru => true
  | .fls => true
  | .symbol _ => true
  | .not p => noII p
  | .and l r => noII l && noII r
  | .or l r => noII l && noII r
  | .implic _ _ => false
  | .iff _ _ => false

/-- The tree contains no `Iff` node (the postcondition of pass 1). -/
def noIff : Prop' → Bool
  | .tru => true
  | .fls => true
  | .symbol _ => true
  | .not p => noIff p
  | .and l r => noIff l && noIff r
  | .or l r => noIff l && noIff r
  | .implic l r => noIff l && noIff r
  | .iff _ _ => false

/-- Negation normal form as the spec describes the postcondition of pass 3:
only `True`, `False`, `Symbol`, `Not(Symbol)`, `And`, `Or` nodes. -/
def nnf : Prop' → Bool
  | .tru => true
  | .fls => true
  | .symbol _ => true
  | .not (.symbol _) => true
  | .not _ => false
  | .and l r => nnf l && nnf r
  | .or l r => nnf l && nnf r
  | .implic _ _ => false
  | .iff _ _ => false

/-- No `Or` node anywhere in the tree has an `And` as either direct child
(the spec's stated postcondition of pass 4). -/
def orAndFree : Prop' → Bool
  | .or (.and _ _) _ => false
  | .or _ (.and _ _) => false
  | .or l r => orAndFree l && orAndFree r
  | .and l r => orAndFree l && orAndFree r
  | .not p => orAndFree p
  | .implic l r => orAndFree l && orAndFree r
  | .iff l r => orAndFree l && orAndFree r
  | _ => true

/-- The tree contains no `And` node anywhere. -/
def andFree : Prop' → Bool
  | .tru => true
  | .fls => true
  | .symbol _ => true
  | .not p => andFree p
  | .and _ _ => false
  | .or l r => andFree l && andFree r
  | .implic l r => andFree l && andFree r
  | .iff l r => andFree l && andFree r

/-- A constant or a literal: `True`, `False`, `Symbol`, or `Not(Symbol)`. -/
def isLit : Prop' → Bool
  | .tru => true
  | .fls => true
  | .symbol _ => true
  | .not (.symbol _) => true
  | _ => false

/-- The clause shape the spec promises for every stored sentence: a constant,
a literal, or an `Or`-tree whose leaves are constants or literals (in
particular no `And` anywhere). -/
def clauseShape : Prop' → Bool
  | .or l r => clauseShape l && clauseShape r
  | p => isLit p

/-- Modelled from the spec's property "eval(AND_of(cnf(P)), M)": the
conjunction of a list of clauses (empty conjunction is `True`). -/
def AND_of (cs : List Prop') : Prop' :=
  cs.foldr Prop'.and .tru

theorem eval_AND_of (cs : List Prop') (m : Model) :
    eval (AND_of cs) m = cs.all (fun p => eval p m) := by
  induction cs with
  | nil => rfl
  | cons h t ih =>
      show (eval h m && eval (AND_of t) m) = _
      simp [ih]

theorem eval_bicon_elim (t : Prop') (m : Model) :
    eval (bicon_elim t) m = eval t m := by
  induction t with
  | tru => rfl
  | fls => rfl
  | symbol name => rfl
  | not p ih => simp [bicon_elim, eval, ih]
  | and l r ihl ihr => simp [bicon_elim, eval, ihl, ihr]
  | or l r ihl ihr => simp [bicon_elim, eval, ihl, ihr]
  | implic l r ihl ihr => simp [bicon_elim, eval, ihl, ihr]
  | iff l r ihl ihr =>
      simp only [bicon_elim, eval, ihl, ihr]
      cases eval l m <;> cases eval r m <;> rfl

theorem eval_implic_elim (t : Prop') (m : Model) :
    eval (implic_elim t) m = eval t m := by
  induction t with
  | tru => rfl
  | fls => rfl
  | symbol name => rfl
  | not p ih => simp [implic_elim, eval, ih]
  | and l r ihl ihr => simp [implic_elim, eval, ihl, ihr]
  | or l r ihl ihr => simp [implic_elim, eval, ihl, ihr]
  | implic l r ihl ihr => simp [implic_elim, eval, ihl, ihr]
  | iff l r ihl ihr => simp [implic_elim, eval, ihl, ihr]

theorem noIff_bicon_elim (t : Prop') : noIff (bicon_elim t) = true := by
  induction t with
  | tru => rfl
  | fls => rfl
  | symbol name => rfl
  | not p ih => simp [bicon_elim, noIff, ih]
  | and l r ihl ihr => simp [bicon_elim, noIff, ihl, ihr]
  | or l r ihl ihr => simp [bicon_elim, noIff, ihl, ihr]
  | implic l r ihl ihr => simp [bicon_elim, noIff, ihl, ihr]
  | iff l r ihl ihr => simp [bicon_elim, noIff, ihl, ihr]

theorem noII_implic_elim (t : Prop') (h : noIff t = true) :
    noII (implic_elim t) = true := by
  induction t with
  | tru => rfl
  | fls => rfl
  | symbol name => rfl
  | not p ih => simp [noIff] at h; simp [implic_elim, noII, ih h]
  | and l r ihl ihr =>
      simp [noIff] at h
      simp [implic_elim, noII, ihl h.1, ihr h.2]
  | or l r ihl ihr =>
      simp [noIff] at h
      simp [implic_elim, noII, ihl h.1, ihr h.2]
  | implic l r ihl ihr =>
      simp [noIff] at h
      simp [implic_elim, noII, ihl h.1, ihr h.2]
  | iff l r ihl ihr => simp [noIff] at h


theorem move_not_inward_ok (t : Prop') :
    noII t = true →
    ∃ u, move_not_inward t = some u ∧ noII u = true ∧ ∀ m, eval u m = eval t m := by
  induction t using move_not_inward.induct with
  | case1 x ih =>
      intro h
      simp only [noII] at h
      obtain ⟨u, hu, hn, he⟩ := ih h
      refine ⟨u, ?_, hn, ?_⟩
      · simp [move_not_inward, hu]
      · intro m; simp [he, eval, Bool.not_not]
  | case2 a b ih1 ih2 =>
      intro h
      simp only [noII, Bool.and_eq_true] at h
      obtain ⟨u1, hu1, hn1, he1⟩ := ih1 (by simp [noII, h.1])
      obtain ⟨u2, hu2, hn2, he2⟩ := ih2 (by simp [noII, h.2])
      refine ⟨.or u1 u2, ?_, ?_, ?_⟩
      · simp [move_not_inward, hu1, hu2]
      · simp [noII, hn1, hn2]
      · intro m; simp [eval, he1, he2, Bool.not_and]
  | case3 a b ih1 ih2 =>
      intro h
      simp only [noII, Bool.and_eq_true] at h
      obtain ⟨u1, hu1, hn1, he1⟩ := ih1 h.1
      obtain ⟨u2, hu2, hn2, he2⟩ := ih2 h.2
      refine ⟨.and (.not u1) (.not u2), ?_, ?_, ?_⟩
      · simp [move_not_inward, hu1, hu2]
      · simp [noII, hn1, hn2]
      · intro m; simp [eval, he1, he2, Bool.not_or]
  | case4 =>
      intro _
      exact ⟨.fls, by simp [move_not_inward], rfl, fun m => by simp [eval]⟩
  | case5 =>
      intro _
      exact ⟨.tru, by simp [move_not_inward], rfl, fun m => by simp [eval]⟩
  | case6 name =>
      intro _
      exact ⟨.not (.symbol name), by simp [move_not_inward], rfl, fun m => rfl⟩
  | case7 lhs rhs => intro h; simp [noII] at h
  | case8 lhs rhs => intro h; simp [noII] at h
  | case9 l r ih1 ih2 =>
      intro h
      simp only [noII, Bool.and_eq_true] at h
      obtain ⟨u1, hu1, hn1, he1⟩ := ih1 h.1
      obtain ⟨u2, hu2, hn2, he2⟩ := ih2 h.2
      refine ⟨.and u1 u2, ?_, ?_, ?_⟩
      · simp [move_not_inward, hu1, hu2]
      · simp [noII, hn1, hn2]
      · intro m; simp [eval, he1, he2]
  | case10 l r ih1 ih2 =>
      intro h
      simp only [noII, Bool.and_eq_true] at h
      obtain ⟨u1, hu1, hn1, he1⟩ := ih1 h.1
      obtain ⟨u2, hu2, hn2, he2⟩ := ih2 h.2
      refine ⟨.or u1 u2, ?_, ?_, ?_⟩
      · simp [move_not_inward, hu1, hu2]
      · simp [noII, hn1, hn2]
      · intro m; simp [eval, he1, he2]
  | case11 lhs rhs => intro h; simp [noII] at h
  | case12 lhs rhs => intro h; simp [noII] at h
  | case13 => intro _; exact ⟨.tru, by simp [move_not_inward], rfl, fun m => rfl⟩
  | case14 => intro _; exact ⟨.fls, by simp [move_not_inward], rfl, fun m => rfl⟩
  | case15 name =>
      intro _
      exact ⟨.symbol name, by simp [move_not_inward], rfl, fun m => rfl⟩

theorem move_not_inward_panics (t : Prop') :
    noII t = false → move_not_inward t = none := by
  induction t using move_not_inward.induct with
  | case1 x ih =>
      intro h
      simp only [noII] at h
      simp [move_not_inward, ih h]
  | case2 a b ih1 ih2 =>
      intro h
      simp only [noII, Bool.and_eq_false_iff] at h
      rcases h with h | h
      · simp [move_not_inward, ih1 (by simp [noII, h])]
      · rcases hcase : noII a with hf | ht
        · simp [move_not_inward, ih1 (by simp [noII, hcase])]
        · obtain ⟨u1, hu1, -, -⟩ := move_not_inward_ok (.not a) (by simp [noII, hcase])
          simp [move_not_inward, hu1, ih2 (by simp [noII, h])]
  | case3 a b ih1 ih2 =>
      intro h
      simp only [noII, Bool.and_eq_false_iff] at h
      rcases h with h | h
      · simp [move_not_inward, ih1 h]
      · rcases hcase : noII a with hf | ht
        · simp [move_not_inward, ih1 hcase]
        · obtain ⟨u1, hu1, -, -⟩ := move_not_inward_ok a hcase
          simp [move_not_inward, hu1, ih2 h]
  | case4 => intro h; simp [noII] at h
  | case5 => intro h; simp [noII] at h
  | case6 name => intro h; simp [noII] at h
  | case7 lhs rhs => intro _; simp [move_not_inward]
  | case8 lhs rhs => intro _; simp [move_not_inward]
  | case9 l r ih1 ih2 =>
      intro h
      simp only [noII, Bool.and_eq_false_iff] at h
      rcases h with h | h
      · simp [move_not_inward, ih1 h]
      · rcases hcase : noII l with hf | ht
        · simp [move_not_inward, ih1 hcase]
        · obtain ⟨u1, hu1, -, -⟩ := move_not_inward_ok l hcase
          simp [move_not_inward, hu1, ih2 h]
  | case10 l r ih1 ih2 =>
      intro h
      simp only [noII, Bool.and_eq_false_iff] at h
      rcases h with h | h
      · simp [move_not_inward, ih1 h]
      · rcases hcase : noII l with hf | ht
        · simp [move_not_inward, ih1 hcase]
        · obtain ⟨u1, hu1, -, -⟩ := move_not_inward_ok l hcase
          simp [move_not_inward, hu1, ih2 h]
  | case11 lhs rhs => intro _; simp [move_not_inward]
  | case12 lhs rhs => intro _; simp [move_not_inward]
  | case13 => intro h; simp [noII] at h
  | case14 => intro h; simp [noII] at h
  | case15 name => intro h; simp [noII] at h

theorem distribute_ok (t : Prop') :
    noII t = true →
    ∃ u, distribute_or_over_and t = some u ∧ ∀ m, eval u m = eval t m := by
  induction t using distribute_or_over_and.induct with
  | case1 l1 l2 r ih1 ih2 =>
      intro h
      simp only [noII, Bool.and_eq_true] at h
      obtain ⟨u1, hu1, he1⟩ := ih1 (by simp [noII, h.1.1, h.2])
      obtain ⟨u2, hu2, he2⟩ := ih2 (by simp [noII, h.1.2, h.2])
      refine ⟨.and u1 u2, ?_, ?_⟩
      · simp [distribute_or_over_and, hu1, hu2]
      · intro m
        simp [eval, he1, he2]
        cases eval l1 m <;> cases eval l2 m <;> cases eval r m <;> rfl
  | case2 l r1 r2 hne ih1 ih2 =>
      intro h
      simp only [noII, Bool.and_eq_true] at h
      obtain ⟨u1, hu1, he1⟩ := ih1 (by simp [noII, h.1, h.2.1])
      obtain ⟨u2, hu2, he2⟩ := ih2 (by simp [noII, h.1, h.2.2])
      refine ⟨.and u1 u2, ?_, ?_⟩
      · simp [distribute_or_over_and, hu1, hu2]
      · intro m
        simp [eval, he1, he2]
        cases eval l m <;> cases eval r1 m <;> cases eval r2 m <;> rfl
  | case3 l r hnl hnr =>
      intro h
      exact ⟨.or l r, by simp [distribute_or_over_and], fun m => rfl⟩
  | case4 l r ih1 ih2 =>
      intro h
      simp only [noII, Bool.and_eq_true] at h
      obtain ⟨u1, hu1, he1⟩ := ih1 h.1
      obtain ⟨u2, hu2, he2⟩ := ih2 h.2
      refine ⟨.and u1 u2, ?_, ?_⟩
      · simp [distribute_or_over_and, hu1, hu2]
      · intro m; simp [eval, he1, he2]
  | case5 p ih =>
      intro h
      simp only [noII] at h
      obtain ⟨u, hu, he⟩ := ih h
      refine ⟨.not u, ?_, ?_⟩
      · simp [distribute_or_over_and, hu]
      · intro m; simp [eval, he]
  | case6 lhs rhs => intro h; simp [noII] at h
  | case7 lhs rhs => intro h; simp [noII] at h
  | case8 => intro _; exact ⟨.tru, by simp [distribute_or_over_and], fun m => rfl⟩
  | case9 => intro _; exact ⟨.fls, by simp [distribute_or_over_and], fun m => rfl⟩
  | case10 name =>
      intro _
      exact ⟨.symbol name, by simp [distribute_or_over_and], fun m => rfl⟩

theorem split_loop_eval (stack acc : List Prop') (m : Model) :
    (split_loop stack acc).all (fun p => eval p m)
      = (stack.all (fun p => eval p m) && acc.all (fun p => eval p m)) := by
  induction stack, acc using split_loop.induct with
  | case1 acc => simp [split_loop]
  | case2 l r rest acc h1 h2 ih =>
      rw [show split_loop (Prop'.and l r :: rest) acc = split_loop (r :: l :: rest) acc by
        simp [split_loop, h1, h2]]
      rw [ih]
      simp [eval]
      cases eval l m <;> cases eval r m <;> simp
  | case3 l r rest acc h1 h2 ih =>
      rw [show split_loop (Prop'.and l r :: rest) acc = split_loop (l :: rest) (acc ++ [r]) by
        simp [split_loop, h1, h2]]
      rw [ih]
      simp [eval]
      cases eval l m <;> cases eval r m <;> simp
  | case4 l r rest acc h1 h2 ih =>
      rw [show split_loop (Prop'.and l r :: rest) acc = split_loop (r :: rest) (acc ++ [l]) by
        simp [split_loop, h1, h2]]
      rw [ih]
      simp [eval]
      cases eval l m <;> cases eval r m <;> simp
  | case5 l r rest acc h1 h2 ih =>
      rw [show split_loop (Prop'.and l r :: rest) acc = split_loop rest (acc ++ [l, r]) by
        simp [split_loop, h1, h2]]
      rw [ih]
      simp [eval]
      cases eval l m <;> cases eval r m <;> simp
  | case6 p rest acc hp ih =>
      rw [show split_loop (p :: rest) acc = split_loop rest (acc ++ [p]) by
        cases p
        case and l r => exact absurd rfl (hp l r)
        all_goals simp [split_loop]]
      rw [ih]
      simp
      cases eval p m <;> simp


theorem split_loop_no_and (stack : List Prop')
    (h : ∀ p ∈ stack, isAnd p = false) (acc : List Prop') :
    split_loop stack acc = acc ++ stack := by
  induction stack generalizing acc with
  | nil => simp [split_loop]
  | cons p rest ih =>
      have hp : isAnd p = false := h p (by simp)
      have step : split_loop (p :: rest) acc = split_loop rest (acc ++ [p]) := by
        cases p
        case and l r => simp [isAnd] at hp
        all_goals simp [split_loop]
      rw [step, ih (fun q hq => h q (by simp [hq]))]
      simp

theorem cnf_ok (p : Prop') :
    ∃ cs, cnf p = some cs ∧ ∀ m, cs.all (fun c => eval c m) = eval p m := by
  have h2 : noII (implic_elim (bicon_elim p)) = true :=
    noII_implic_elim _ (noIff_bicon_elim p)
  obtain ⟨u, hu, hn, he⟩ := move_not_inward_ok _ h2
  obtain ⟨v, hv, hev⟩ := distribute_ok u hn
  refine ⟨split_clause v, ?_, ?_⟩
  · simp [cnf, hu, hv]
  · intro m
    have hs : (split_clause v).all (fun c => eval c m) = eval v m := by
      rw [split_clause, split_loop_eval]
      simp
    rw [hs, hev, he, eval_implic_elim, eval_bicon_elim]

/-- C1: for every `Prop` `P` and every model `M`, `cnf` returns a clause list
whose conjunction evaluates under `M` exactly as `P` does: CNF conversion
preserves truth value under every assignment. -/
theorem cnf_preserves_eval (P : Prop') (M : Model) :
    ∃ cs, cnf P = some cs ∧ eval (AND_of cs) M = eval P M := by
  obtain ⟨cs, hcs, he⟩ := cnf_ok P
  exact ⟨cs, hcs, by rw [eval_AND_of, he M]⟩

/-- C5: for every input `Prop`, `cnf` returns normally (no `panic!` branch of
`move_not_inward` or `distribute_or_over_and` is reached, since passes 1-2
removed every `Implic`/`Iff`), and hence `KB::tell` returns `Ok(())` for
every knowledge base. -/
theorem tell_and_cnf_total (kb : KB) (P : Prop') :
    ∃ cs kb', cnf P = some cs ∧ KB.tell kb P = some kb' := by
  obtain ⟨cs, hcs, -⟩ := cnf_ok P
  exact ⟨cs, ⟨kb.sentences ++ cs⟩, hcs, by simp [KB.tell, hcs]⟩

/-- C2, evaluation at the failing input: `Not(Or(Not p, q))` contains no
`Implic`/`Iff`, yet `move_not_inward` turns it into
`And(Not(Not p), Not q)`, whose left conjunct is a `Not` applied to a `Not`
rather than to a `Symbol` — the output is not in negation normal form. -/
theorem move_not_inward_not_nnf :
    noII (Prop'.not (.or (.not (.symbol "p")) (.symbol "q"))) = true ∧
    move_not_inward (Prop'.not (.or (.not (.symbol "p")) (.symbol "q")))
      = some (.and (.not (.not (.symbol "p"))) (.not (.symbol "q"))) ∧
    nnf (Prop'.and (.not (.not (.symbol "p"))) (.not (.symbol "q"))) = false := by
  refine ⟨rfl, ?_, rfl⟩
  simp [move_not_inward]

/-- C3, evaluation at the failing input: `Or(Or(And(p,q),r),s)` is in
negation normal form, yet `distribute_or_over_and` returns it unchanged
(an `Or` whose direct children are not `And` is never recursed into), so the
inner `Or` keeps its `And` child. -/
theorem distribute_leaves_or_over_and :
    nnf (Prop'.or (.or (.and (.symbol "p") (.symbol "q")) (.symbol "r")) (.symbol "s"))
      = true ∧
    distribute_or_over_and
        (Prop'.or (.or (.and (.symbol "p") (.symbol "q")) (.symbol "r")) (.symbol "s"))
      = some (Prop'.or (.or (.and (.symbol "p") (.symbol "q")) (.symbol "r")) (.symbol "s")) ∧
    orAndFree (Prop'.or (.or (.and (.symbol "p") (.symbol "q")) (.symbol "r")) (.symbol "s"))
      = false := by
  refine ⟨rfl, ?_, rfl⟩
  simp [distribute_or_over_and]

/-- C4, evaluation at the failing input: telling `((p & q) | r) | s` appends
the single clause `((p & q) | r) | s`, which contains an `And` node and is
not a disjunctive clause. -/
theorem tell_clause_contains_and :
    KB.tell KB.empty
        (Prop'.or (.or (.and (.symbol "p") (.symbol "q")) (.symbol "r")) (.symbol "s"))
      = some ⟨[Prop'.or (.or (.and (.symbol "p") (.symbol "q")) (.symbol "r")) (.symbol "s")]⟩ ∧
    clauseShape (Prop'.or (.or (.and (.symbol "p") (.symbol "q")) (.symbol "r")) (.symbol "s"))
      = false ∧
    andFree (Prop'.or (.or (.and (.symbol "p") (.symbol "q")) (.symbol "r")) (.symbol "s"))
      = false := by
  refine ⟨?_, rfl, rfl⟩
  simp [KB.tell, KB.empty, cnf, bicon_elim, implic_elim, move_not_inward,
        distribute_or_over_and, split_clause, split_loop, isAnd]

/-- C6, counterexample to the claim as stated: `Or(p, Implic(q, r))` contains
an `Implic` node, yet `distribute_or_over_and` returns it unchanged instead
of aborting — an `Or` with no `And` child is never recursed into, so the
panic branch is not reached. -/
theorem distribute_ignores_nested_implic :
    noII (Prop'.or (.symbol "p") (.implic (.symbol "q") (.symbol "r"))) = false ∧
    distribute_or_over_and (Prop'.or (.symbol "p") (.implic (.symbol "q") (.symbol "r")))
      = some (Prop'.or (.symbol "p") (.implic (.symbol "q") (.symbol "r"))) := by
  refine ⟨rfl, ?_⟩
  simp [distribute_or_over_and]

/-- C6, amended: `move_not_inward` aborts on every tree that contains an
`Implic` or `Iff` node anywhere, and `distribute_or_over_and` aborts when its
argument is itself an `Implic` or `Iff` node (but not, in general, when an
`Implic`/`Iff` merely occurs inside the tree). -/
theorem panic_conditions_amended (t l r : Prop') (h : noII t = false) :
    move_not_inward t = none ∧
    distribute_or_over_and (.implic l r) = none ∧
    distribute_or_over_and (.iff l r) = none := by
  refine ⟨move_not_inward_panics t h, ?_, ?_⟩ <;> simp [distribute_or_over_and]

theorem panic_conditions_amended_witness :
    noII (Prop'.implic .tru .fls) = false ∧
    (move_not_inward (Prop'.implic .tru .fls) = none ∧
     distribute_or_over_and (Prop'.implic .tru .tru) = none ∧
     distribute_or_over_and (Prop'.iff .tru .tru) = none) :=
  ⟨rfl, panic_conditions_amended (.implic .tru .fls) .tru .tru rfl⟩

/-- C7: `"p & q => r"` parses to `Implic(And(Symbol p, Symbol q), Symbol r)`,
and `"(p & q)"` parses to the same `Prop` as `"p & q"` (namely
`And(Symbol p, Symbol q)`). -/
theorem parse_scenarios :
    KB.str_to_prop "p & q => r"
      = .ok (.implic (.and (.symbol "p") (.symbol "q")) (.symbol "r")) ∧
    KB.str_to_prop "(p & q)" = KB.str_to_prop "p & q" ∧
    KB.str_to_prop "(p & q)" = .ok (.and (.symbol "p") (.symbol "q")) :=
  ⟨rfl, rfl, rfl⟩

/-- C8, counterexample to the claim as stated: the unbalanced input
`"(p & q"` does not produce a parse error — the unmatched `(` is flushed
from the operator stack into the output queue, read back as an operand, and
returned: the result is `Ok(Symbol("("))`. -/
theorem parse_unbalanced_returns_ok :
    KB.str_to_prop "(p & q" = .ok (.symbol "(") := rfl

/-- C8, amended: the parser errs when an operator is reduced with fewer than
two operands (`"p |"`) and when a `)` finds no matching `(` (`"p )"`); the
empty string parses to `Ok(Symbol(""))`; a missing closing parenthesis is
not detected (`"(p & q"` gives `Ok(Symbol("("))`); leftover operands are not
detected (`"p q"` gives `Ok(Symbol("q"))`, the top of the operand stack).
On failure only the error string is returned. -/
theorem parse_error_behavior_amended :
    KB.str_to_prop "p |" = .error "invalid sentence" ∧
    KB.str_to_prop "p )" = .error "invalid sentence" ∧
    KB.str_to_prop "" = .ok (.symbol "") ∧
    KB.str_to_prop "(p & q" = .ok (.symbol "(") ∧
    KB.str_to_prop "p q" = .ok (.symbol "q") :=
  ⟨rfl, rfl, rfl, rfl, rfl⟩

/-- C9: telling `Implic(And(p,q), r)` and then `Or(q, r)` to the empty base
stores exactly the two clauses `Or(Or(Not p, Not q), r)` and `Or(q, r)`, in
that order. -/
theorem kb_accumulation :
    KB.tell KB.empty (.implic (.and (.symbol "p") (.symbol "q")) (.symbol "r"))
      = some ⟨[.or (.or (.not (.symbol "p")) (.not (.symbol "q"))) (.symbol "r")]⟩ ∧
    KB.tell ⟨[.or (.or (.not (.symbol "p")) (.not (.symbol "q"))) (.symbol "r")]⟩
        (.or (.symbol "q") (.symbol "r"))
      = some ⟨[.or (.or (.not (.symbol "p")) (.not (.symbol "q"))) (.symbol "r"),
               .or (.symbol "q") (.symbol "r")]⟩ ∧
    [Prop'.or (.or (.not (.symbol "p")) (.not (.symbol "q"))) (.symbol "r"),
     Prop'.or (.symbol "q") (.symbol "r")].length = 2 := by
  refine ⟨?_, ?_, rfl⟩ <;>
    simp [KB.tell, KB.empty, cnf, bicon_elim, implic_elim, move_not_inward,
          distribute_or_over_and, split_clause, split_loop, isAnd]

/-- C10: on a knowledge base none of whose sentences contains an `And` node,
`split_clauses` keeps the stored sentences as a multiset but replaces the
sequence by its reverse. -/
theorem split_clauses_reverses (kb : KB)
    (h : ∀ p ∈ kb.sentences, andFree p = true) :
    (KB.split_clauses kb).sentences = kb.sentences.reverse ∧
    (KB.split_clauses kb).sentences.Perm kb.sentences := by
  have htop : ∀ p ∈ kb.sentences.reverse, isAnd p = false := by
    intro p hp
    have hf := h p (List.mem_reverse.mp hp)
    cases p <;> simp_all [andFree, isAnd]
  have hrw : (KB.split_clauses kb).sentences = kb.sentences.reverse := by
    simp [KB.split_clauses, split_loop_no_and _ htop]
  exact ⟨hrw, by rw [hrw]; exact List.reverse_perm _⟩

theorem split_clauses_reverses_witness :
    (∀ p ∈ (KB.mk [Prop'.symbol "p", Prop'.not (.symbol "q")]).sentences,
        andFree p = true) ∧
    ((KB.split_clauses ⟨[Prop'.symbol "p", Prop'.not (.symbol "q")]⟩).sentences
        = [Prop'.symbol "p", Prop'.not (.symbol "q")].reverse ∧
     (KB.split_clauses ⟨[Prop'.symbol "p", Prop'.not (.symbol "q")]⟩).sentences.Perm
        [Prop'.symbol "p", Prop'.not (.symbol "q")]) :=
  ⟨by decide, split_clauses_reverses ⟨[Prop'.symbol "p", Prop'.not (.symbol "q")]⟩ (by decide)⟩

end Logic
